import Mathlib

/-!
Verification development for a screen-capture object-detection control loop
(Rust sources: `main.rs`, `capture.rs`, `capture/inner.rs`, `inference.rs`,
`input_listener.rs`, `config.rs`, `mouse_control.rs`).

The Rust code is shallowly embedded: pure fragments become Lean functions,
stateful fragments become explicit state-passing functions, and platform
calls (DXGI frame acquisition, the ONNX model run) become oracle parameters
enumerating the outcomes the code distinguishes.  `f32` arithmetic is
modelled over `ℚ` (all quantities involved are exactly representable and no
rounding matters for the statements proved); `u32` arithmetic is `Nat` with
an explicit `% 2 ^ 32` where overflow can occur.
-/

namespace LuoluoAI

/-! ## Target selector (main.rs, nearest-target selection loop)

The loop iterates over the detection boxes, computes for each box the
Euclidean distance from its center `((xmin+xmax)/2, (ymin+ymax)/2)` to the
reference center, and keeps the box with the strictly smallest distance
(`if dist < min_dist`), starting from `min_dist = f32::MAX` so the first
box always wins the first comparison.  Since `Real.sqrt` is strictly
monotone on nonnegative arguments, comparing `sqrt sq₁ < sqrt sq₂` is
equivalent to comparing the squared distances `sq₁ < sq₂`; the embedding
folds with the squared distance, and the theorems restate minimality in
terms of the Euclidean (square-root) distance as well. -/

/-- Axis-aligned detection box, as consumed by the selection loop
(`det.xmin() .. det.ymax()` in `main.rs`). -/
structure Det where
  xmin : ℚ
  ymin : ℚ
  xmax : ℚ
  ymax : ℚ
deriving DecidableEq, Repr

/-- Box center, `((x1 + x2) / 2.0, (y1 + y2) / 2.0)` in `main.rs`. -/
def detCenter (d : Det) : ℚ × ℚ :=
  ((d.xmin + d.xmax) / 2, (d.ymin + d.ymax) / 2)

/-- Squared Euclidean distance from the box center to `(cx, cy)`:
the argument of `.sqrt()` in
`((center_x - screen_center_x).powi(2) + (center_y - screen_center_y).powi(2)).sqrt()`. -/
def distSq (d : Det) (cx cy : ℚ) : ℚ :=
  ((detCenter d).1 - cx) ^ 2 + ((detCenter d).2 - cy) ^ 2

/-- One iteration of the selection loop: the accumulator is
`closest_box : Option` together with its (squared) distance `min_dist`;
`none` models the initial `min_dist = f32::MAX` state, against which the
first box always compares strictly smaller. -/
def selectStep (cx cy : ℚ) (acc : Option (Det × ℚ)) (d : Det) : Option (Det × ℚ) :=
  match acc with
  | none => some (d, distSq d cx cy)
  | some (b, m) => if distSq d cx cy < m then some (d, distSq d cx cy) else some (b, m)

/-- The nearest-target selection loop of `main.rs` (lines 304–326), as the
spec's `select_nearest(detections, center_x, center_y)`. -/
def select_nearest (dets : List Det) (cx cy : ℚ) : Option Det :=
  (dets.foldl (selectStep cx cy) none).map Prod.fst

/-- Recursive form of the loop body: current best box `b` (whose stored
distance is `distSq b cx cy`), remaining boxes `l`. -/
def selBest (cx cy : ℚ) (b : Det) : List Det → Det
  | [] => b
  | d :: ds => if distSq d cx cy < distSq b cx cy then selBest cx cy d ds else selBest cx cy b ds

/-! ## Trigger gate (input_listener.rs, main.rs loop gate)

`InputListener` keeps `hotkey_pressed` (written by the 10 ms poller),
`toggle_state` and `last_trigger`.  The loop gate in `main.rs` is
`input_listener.is_hotkey_pressed() && input_listener.check_trigger_cooldown(100)`:
`check_trigger_cooldown(cooldown_ms)` compares `last_trigger.elapsed()`
against the cooldown and, on success, sets `last_trigger` to now.  Note
that the loop gate never reads `toggle_state` and nothing in the program
ever flips it (`set_toggle_state` is called once with `false` at start;
`get_toggle_state` is dead code), so the gate is identical in Hold and
Toggle trigger modes.  Timestamps are modelled in milliseconds as `Nat`;
`Instant::elapsed` is `now - last_trigger` (truncated subtraction, which
agrees with the monotone-clock reality where `now ≥ last_trigger`). -/

/-- Mutable listener state read and written by the loop gate. -/
structure GateState where
  pressed : Bool
  toggleOn : Bool
  lastTrigger : ℕ
deriving DecidableEq, Repr

/-- The embedding of `InputListener::check_trigger_cooldown`:
returns whether the cooldown has elapsed and, if so, resets
`last_trigger` to `now`. -/
def check_trigger_cooldown (st : GateState) (now cooldown : ℕ) : Bool × GateState :=
  if cooldown ≤ now - st.lastTrigger then (true, { st with lastTrigger := now })
  else (false, st)

/-- One evaluation of the loop's trigger gate
`is_hotkey_pressed() && check_trigger_cooldown(cooldown)`; the `&&`
short-circuits, so the cooldown state is only touched while the key is
pressed.  `main.rs` instantiates `cooldown = 100`. -/
def loopGate (st : GateState) (now cooldown : ℕ) : Bool × GateState :=
  if st.pressed then check_trigger_cooldown st now cooldown else (false, st)

/-- Run of the loop gate over a trace of ticks; each tick supplies the
physical key state sampled by the poller (stored into `hotkey_pressed`
ahead of the gate) and the current time in ms.  Returns the per-tick gate
decisions and the final state. -/
def runGate (cooldown : ℕ) : GateState → List (Bool × ℕ) → List Bool × GateState
  | st, [] => ([], st)
  | st, (p, t) :: rest =>
      let r := loopGate { st with pressed := p } t cooldown
      let rs := runGate cooldown r.2 rest
      (r.1 :: rs.1, rs.2)

/-- Times of the ticks on which the gate permitted an actuation. -/
def fireTimes (cooldown : ℕ) (st : GateState) (trace : List (Bool × ℕ)) : List ℕ :=
  ((runGate cooldown st trace).1.zip (trace.map Prod.snd)).filterMap
    (fun fb => if fb.1 then some fb.2 else none)

/-! ## Frame source (capture.rs / capture/inner.rs)

`capture_full` and `capture_region` attempt to acquire the next frame
within the session timeout.  The platform call (`acquire_next_frame`, plus
`buffer`/`buffer_crop` and the possible session recreation) is modelled by
an oracle enumerating exactly the outcomes the Rust code distinguishes.
`u32` addition `x + width` is modelled with an explicit `% 2 ^ 32`
(release-mode wrapping).  The region result additionally records the
rectangle passed to `buffer_crop`, so that "the platform crop call is
never made with a partially out-of-bounds or empty rectangle" is a
statement about the embedding, not an instrumentation of it. -/

/-- Capture-session state owned by the loop thread: display dimensions of
the current duplication session and the internally owned pixel buffer. -/
structure CaptureState where
  width : ℕ
  height : ℕ
  rgba : List ℕ
deriving DecidableEq, Repr

/-- Outcomes of one `acquire_next_frame` attempt, as the Rust `match`
distinguishes them.  `ok bytes` carries the row-packed pixel bytes the
frame yields; `accessLost w h` is a session loss whose in-place
recreation succeeds and reports the (possibly changed) display size;
`accessLostFail` is a session loss whose recreation itself fails;
`bufferFail` is a failure of `buffer()` / `buffer_crop()` after a
successful acquire. -/
inductive AcquireOutcome where
  | ok (bytes : List ℕ)
  | timeout
  | accessLost (newW newH : ℕ)
  | accessLostFail
  | invalidSize
  | bufferFail
  | otherError
deriving DecidableEq, Repr

/-- Result of `capture_full`: the new session state and the
`had_new_frame` boolean, or a fatal error. -/
inductive CapResult where
  | ok (st : CaptureState) (didCapture : Bool)
  | fatal
deriving DecidableEq, Repr

/-- Result of `capture_region`: additionally records the rectangle
`(x, y, end_x, end_y)` handed to `buffer_crop`, if that call was made. -/
inductive RegionCapResult where
  | ok (st : CaptureState) (didCapture : Bool) (crop : Option (ℕ × ℕ × ℕ × ℕ))
  | fatal (crop : Option (ℕ × ℕ × ℕ × ℕ))
deriving DecidableEq, Repr

/-- Embedding of `ScreenCapture::capture_full` / `inner::capture_full`. -/
def capture_full (st : CaptureState) (o : AcquireOutcome) : CapResult :=
  match o with
  | .ok bytes => .ok { st with rgba := bytes } (bytes ≠ [])
  | .timeout => .ok st false
  | .accessLost w h => .ok { st with width := w, height := h } false
  | .accessLostFail => .fatal
  | .invalidSize => .fatal
  | .bufferFail => .fatal
  | .otherError => .fatal

/-- Embedding of `ScreenCapture::capture_region` / `inner::capture_region`:
zero width/height returns `false` immediately; the requested rectangle is
clipped to the display via `end_x = min (x + width) self.width` and
`end_y = min (y + height) self.height`; a rectangle empty after clipping
returns `false`; only then is the frame acquired and `buffer_crop`
called with `(x, y, end_x, end_y)`.  `InvalidSize` is a soft `false` here
(unlike in `capture_full`, which has no such arm). -/
def capture_region (st : CaptureState) (x y width height : ℕ)
    (o : AcquireOutcome) : RegionCapResult :=
  if width = 0 ∨ height = 0 then .ok st false none
  else if min ((x + width) % 2 ^ 32) st.width ≤ x ∨
      min ((y + height) % 2 ^ 32) st.height ≤ y then .ok st false none
  else
    match o with
    | .ok bytes => .ok { st with rgba := bytes } (bytes ≠ [])
        (some (x, y, min ((x + width) % 2 ^ 32) st.width,
          min ((y + height) % 2 ^ 32) st.height))
    | .timeout => .ok st false none
    | .accessLost w h => .ok { st with width := w, height := h } false none
    | .accessLostFail => .fatal none
    | .invalidSize => .ok st false none
    | .bufferFail => .fatal (some (x, y, min ((x + width) % 2 ^ 32) st.width,
        min ((y + height) % 2 ^ 32) st.height))
    | .otherError => .fatal none

/-- Containment of a `buffer_crop` rectangle `(x, y, end_x, end_y)` in a
`W × H` display together with positive area: the crop starts at the
requested corner, ends strictly after it, and ends within the display. -/
def cropContained (W H x y : ℕ) (r : ℕ × ℕ × ℕ × ℕ) : Prop :=
  r.1 = x ∧ r.2.1 = y ∧ x < r.2.2.1 ∧ r.2.2.1 ≤ W ∧ y < r.2.2.2 ∧ r.2.2.2 ≤ H

/-! ## Pixel converter (inference.rs, BGRA→RGB conversion)

`rgb.par_chunks_exact_mut(3).zip(rgba.par_chunks_exact(4))` pairs the
pixels in order and writes `rgb_p[0] = rgba_p[2]`, `rgb_p[1] = rgba_p[1]`,
`rgb_p[2] = rgba_p[0]` (DXGI delivers BGRA; alpha is dropped).  The
parallel iterator touches disjoint chunks, so its result equals the
sequential per-pixel map embedded here; `chunks_exact` ignores a partial
trailing chunk. -/

/-- The BGRA→RGB conversion: consumes the source four bytes at a time
`[b, g, r, a]` and emits `[r, g, b]`; a partial trailing chunk is
ignored, as `chunks_exact` does. -/
def bgraToRgb : List ℕ → List ℕ
  | b :: g :: r :: _a :: rest => r :: g :: b :: bgraToRgb rest
  | _ => []

/-- Re-expansion of a packed RGB buffer with the inverse channel order
and alpha 255: `[r, g, b]` becomes `[b, g, r, 255]` (the round-trip
direction of the spec's property). -/
def rgbToBgra : List ℕ → List ℕ
  | r :: g :: b :: rest => b :: g :: r :: 255 :: rgbToBgra rest
  | _ => []

/-- Replace the alpha byte of every complete BGRA pixel by 255. -/
def setAlpha255 : List ℕ → List ℕ
  | b :: g :: r :: _a :: rest => b :: g :: r :: 255 :: setAlpha255 rest
  | _ => []

/-- Visible (non-alpha) channels of a BGRA buffer, pixel by pixel. -/
def dropAlpha : List ℕ → List ℕ
  | b :: g :: r :: _a :: rest => b :: g :: r :: dropAlpha rest
  | _ => []

/-! ## Inference engine (inference.rs)

`InferenceEngine::capture_once` dispatches on the region mode, performs
the capture, and — only when a model is loaded — converts the frame and
runs the model, storing the first result.  The ONNX model itself is
opaque: a loaded model is embedded as a function from the RGB buffer,
its dimensions and the freshly read confidence threshold to either a
result list or an error (`model.run(engines, &[img])?`).  A `Y` result is
abstracted to its box list.  The wall-clock fields of `CaptureStats` are
not representable and are omitted; `did_capture` is kept. -/

/-- Region mode of `inference.rs` (the GUI enum of `main.rs` is
identical, with `Custom` carrying the rectangle). -/
inductive RegionMode where
  | fullscreen
  | center640
  | center1280
  | custom (x y width height : ℕ)
deriving DecidableEq, Repr

/-- Which platform capture call a tick makes. -/
inductive CaptureCall where
  | full
  | region (x y w h : ℕ)
deriving DecidableEq, Repr

/-- The region-mode dispatch of `capture_once` (and of the `main.rs`
loop, which is the same `match`): returns the capture call made and the
`(width, height)` later handed to inference.  In `Custom` mode an
invalid rectangle (zero size or origin outside the display) falls back
to a full-screen capture. -/
def regionDispatch : RegionMode → ℕ → ℕ → CaptureCall × ℕ × ℕ
  | .fullscreen, fullW, fullH => (.full, fullW, fullH)
  | .center640, fullW, fullH =>
      (.region ((fullW - min 640 fullW) / 2) ((fullH - min 640 fullH) / 2)
        (min 640 fullW) (min 640 fullH), min 640 fullW, min 640 fullH)
  | .center1280, fullW, fullH =>
      (.region ((fullW - min 1280 fullW) / 2) ((fullH - min 1280 fullH) / 2)
        (min 1280 fullW) (min 1280 fullH), min 1280 fullW, min 1280 fullH)
  | .custom x y width height, fullW, fullH =>
      if 0 < width ∧ 0 < height ∧ x < fullW ∧ y < fullH then
        (.region x y (min width (fullW - x)) (min height (fullH - y)),
          min width (fullW - x), min height (fullH - y))
      else (.full, fullW, fullH)

/-- A loaded model: RGB buffer, width, height and the confidence
threshold read fresh for the call, to either a list of result sets (each
abstracted to its detection boxes) or a run error. -/
def ModelFn : Type := List ℕ → ℕ → ℕ → ℚ → Except String (List (List Det))

/-- The `InferenceEngine` fields `capture_once` touches. -/
structure EngineState where
  model : Option ModelFn
  results : List (List Det)
  isRunning : Bool
  confThreshold : ℚ
  mode : RegionMode

/-- The `CaptureContext` as `capture_once` sees it: the session state
plus the reusable RGB conversion buffer. -/
structure InferCtx where
  cap : CaptureState
  rgb : List ℕ
deriving DecidableEq, Repr

/-- `Vec::resize(n, 0)`: truncate or extend with zeros to length `n`. -/
def resizeList (l : List ℕ) (n : ℕ) : List ℕ :=
  (l ++ List.replicate n 0).take n

/-- The conversion step of `capture_once`: the RGB buffer is resized to
`3 * w * h` and the zipped chunk iterators overwrite one 3-byte chunk per
complete 4-byte source chunk, leaving any remaining bytes of the resized
buffer as they were. -/
def convertInto (oldRgb rgba : List ℕ) (w h : ℕ) : List ℕ :=
  (bgraToRgb rgba).take (3 * (w * h)) ++
    (resizeList oldRgb (3 * (w * h))).drop (min (3 * (w * h)) (bgraToRgb rgba).length)

/-- The post-capture half of `capture_once`: skip when no new frame or an
empty buffer; otherwise, only if a model is loaded, convert and run it,
storing the first result set (if any). -/
def afterCapture (eng : EngineState) (ctx : InferCtx) (did : Bool) (w h : ℕ) :
    Except String (EngineState × InferCtx × Bool) :=
  if did = false ∨ ctx.cap.rgba = [] then .ok (eng, ctx, false)
  else
    match eng.model with
    | none => .ok (eng, ctx, did)
    | some run =>
        let rgb := convertInto ctx.rgb ctx.cap.rgba w h
        match run rgb w h eng.confThreshold with
        | .error e => .error e
        | .ok ys =>
            match ys.head? with
            | some y => .ok ({ eng with results := [y] }, { ctx with rgb := rgb }, did)
            | none => .ok (eng, { ctx with rgb := rgb }, did)

/-- The `Fullscreen`-call arm of `capture_once`: propagate a fatal
capture error, otherwise continue after the capture. -/
def fullStep (eng : EngineState) (ctx : InferCtx) (w h : ℕ) (o : AcquireOutcome) :
    Except String (EngineState × InferCtx × Bool) :=
  match capture_full ctx.cap o with
  | .fatal => .error "DXGI 全屏捕获失败"
  | .ok cap did => afterCapture eng { ctx with cap := cap } did w h

/-- The region-call arm of `capture_once`. -/
def regionStep (eng : EngineState) (ctx : InferCtx) (x y rw rh w h : ℕ)
    (o : AcquireOutcome) : Except String (EngineState × InferCtx × Bool) :=
  match capture_region ctx.cap x y rw rh o with
  | .fatal _ => .error "DXGI 区域捕获失败"
  | .ok cap did _ => afterCapture eng { ctx with cap := cap } did w h

/-- Embedding of `InferenceEngine::capture_once`. -/
def captureOnce (eng : EngineState) (ctx : InferCtx) (o : AcquireOutcome) :
    Except String (EngineState × InferCtx × Bool) :=
  if eng.isRunning = false then .ok (eng, ctx, false)
  else
    match regionDispatch eng.mode ctx.cap.width ctx.cap.height with
    | (.full, w, h) => fullStep eng ctx w h o
    | (.region x y rw rh, w, h) => regionStep eng ctx x y rw rh w h o

/-- A concrete loaded model for counterexamples: always returns one
result set holding the single box (1, 2, 3, 4). -/
def runC5 : ModelFn := fun _ _ _ _ => .ok [[⟨1, 2, 3, 4⟩]]

/-- Engine in `Custom (5, 5, 0, 7)` mode (zero requested width) with
`runC5` loaded and running. -/
def engC5 : EngineState := ⟨some runC5, [], true, 1 / 4, .custom 5 5 0 7⟩

/-! ## Aim controller (main.rs delta computation, lines 326–344)

`target = box corner + box size * (0.5 + offset)`; the raw delta is
`target - screen_center`, scaled by the sensitivities and truncated to
`i32` by the `as i32` casts.  Crucially, `screen_center_x/y` are computed
once at loop start as `capture.width()/2.0`, `capture.height()/2.0` —
the center of the FULL display — while the detection coordinates are
relative to the captured crop. -/

/-- The `as i32` cast: truncation toward zero. -/
def ratTrunc (q : ℚ) : ℤ :=
  q.num.tdiv q.den

/-- The screen center computed once at loop start from the full display
size (`main.rs` lines 209–210). -/
def screenCenter (w h : ℕ) : ℚ × ℚ :=
  ((w : ℚ) / 2, (h : ℚ) / 2)

/-- The delta computation and truncation of `main.rs`: target point from
box and offsets, raw delta against the given center, sensitivity scaling,
`as i32` truncation.  Returns the pair passed to `move_relative`. -/
def computeMove (box : Det) (cx cy xOff yOff yaw pitch : ℚ) : ℤ × ℤ :=
  (ratTrunc ((box.xmin + (box.xmax - box.xmin) * (1 / 2 + xOff) - cx) * yaw),
   ratTrunc ((box.ymin + (box.ymax - box.ymin) * (1 / 2 + yOff) - cy) * pitch))

/-! ## Model version/task resolution (inference.rs)

`infer_yolo_meta` lowercases the file stem, sniffs the task from
substrings, and resolves the version as
`version_override.or_else(|| parse_version_from_name(&stem))`;
`parse_version_from_name` first looks for the first `"yolo"` occurrence
and parses the digit run after it as `u8`, then falls back to scanning
for a `'v'` followed by a digit run that parses as `u8`.  Stems are
embedded as lists of (already lowercased) characters; `str::parse::<u8>`
succeeds exactly on a non-empty digit run with value ≤ 255. -/

/-- `str::parse::<u8>` on a run of ASCII digits: non-empty and ≤ 255. -/
def parseDigitsU8 (l : List Char) : Option ℕ :=
  if l = [] then none
  else
    let v := l.foldl (fun acc c => acc * 10 + (c.toNat - 48)) 0
    if v ≤ 255 then some v else none

/-- Suffix of the name after the first occurrence of `"yolo"`, if any
(`name.find("yolo")` followed by slicing at `idx + 4`). -/
def yoloSuffix : List Char → Option (List Char)
  | 'y' :: 'o' :: 'l' :: 'o' :: rest => some rest
  | _ :: rest => yoloSuffix rest
  | [] => none

/-- The fallback scan: walk the characters; at each `'v'`, try to parse
the following digit run as `u8`; on failure continue scanning.  (The Rust
iterator resumes after the digit run it consumed; resuming right after
the `'v'` is equivalent, because a digit character never matches the
`'v'` arm, so the skipped digits contribute nothing.) -/
def vScan : List Char → Option ℕ
  | [] => none
  | 'v' :: rest =>
      match parseDigitsU8 (rest.takeWhile Char.isDigit) with
      | some v => some v
      | none => vScan rest
  | _ :: rest => vScan rest

/-- Embedding of `parse_version_from_name` (on the lowercased stem). -/
def parse_version_from_name (name : List Char) : Option ℕ :=
  match yoloSuffix name with
  | some suffix =>
      match parseDigitsU8 (suffix.takeWhile Char.isDigit) with
      | some v => some v
      | none => vScan name
  | none => vScan name

/-- Task names recognised from the stem. -/
inductive Task where
  | objectDetection
  | instanceSegmentation
  | keypointsDetection
  | orientedObjectDetection
  | imageClassification
deriving DecidableEq, Repr

/-- Whether `pat` occurs as a contiguous subsequence of `l`
(`str::contains`). -/
def containsSeq (pat : List Char) : List Char → Bool
  | [] => pat.isEmpty
  | c :: rest => (pat.isPrefixOf (c :: rest) : Bool) || containsSeq pat rest

/-- The task sniffing of `infer_yolo_meta`. -/
def inferTask (stem : List Char) : Task :=
  if containsSeq "seg".toList stem || containsSeq "segment".toList stem then
    .instanceSegmentation
  else if containsSeq "pose".toList stem || containsSeq "kpt".toList stem then
    .keypointsDetection
  else if containsSeq "obb".toList stem then .orientedObjectDetection
  else if containsSeq "cls".toList stem || containsSeq "classify".toList stem then
    .imageClassification
  else .objectDetection

/-- Embedding of `infer_yolo_meta`: task from the stem, version from the
override or the filename, else the fatal configuration error. -/
def infer_yolo_meta (stem : List Char) (versionOverride : Option ℕ) :
    Except String (Task × ℕ) :=
  match versionOverride.or (parse_version_from_name stem) with
  | some v => .ok (inferTask stem, v)
  | none => .error "无法从文件名解析 YOLO 版本"

/-! ## Theorems -/

theorem selectStep_foldl (cx cy : ℚ) (b : Det) (l : List Det) :
    l.foldl (selectStep cx cy) (some (b, distSq b cx cy)) =
      some (selBest cx cy b l, distSq (selBest cx cy b l) cx cy) := by
  induction l generalizing b with
  | nil => rfl
  | cons d ds ih =>
      by_cases h : distSq d cx cy < distSq b cx cy <;>
        simp [List.foldl, selectStep, selBest, h, ih]

theorem select_nearest_cons (cx cy : ℚ) (b : Det) (l : List Det) :
    select_nearest (b :: l) cx cy = some (selBest cx cy b l) := by
  simp [select_nearest, List.foldl, selectStep, selectStep_foldl]

theorem selBest_min (cx cy : ℚ) (b : Det) (l : List Det) :
    ∀ e ∈ b :: l, distSq (selBest cx cy b l) cx cy ≤ distSq e cx cy := by
  induction l generalizing b with
  | nil => simp [selBest]
  | cons d ds ih =>
      intro e he
      simp only [List.mem_cons] at he
      by_cases h : distSq d cx cy < distSq b cx cy
      · simp only [selBest, h, if_true]
        rcases he with he | he | he
        · rw [he]; exact le_trans (ih d d (by simp)) (le_of_lt h)
        · rw [he]; exact ih d d (by simp)
        · exact ih d e (by simp [he])
      · simp only [selBest, h, if_false]
        rcases he with he | he | he
        · rw [he]; exact ih b b (by simp)
        · rw [he]; exact le_trans (ih b b (by simp)) (not_lt.mp h)
        · exact ih b e (by simp [he])

theorem selBest_first (cx cy : ℚ) (b : Det) (l : List Det) :
    ∃ l₁ l₂, b :: l = l₁ ++ selBest cx cy b l :: l₂ ∧
      ∀ e ∈ l₁, distSq (selBest cx cy b l) cx cy < distSq e cx cy := by
  induction l generalizing b with
  | nil => exact ⟨[], [], by simp [selBest]⟩
  | cons d ds ih =>
      by_cases h : distSq d cx cy < distSq b cx cy
      · simp only [selBest, h, if_true]
        obtain ⟨l₁, l₂, hdec, hlt⟩ := ih d
        refine ⟨b :: l₁, l₂, by simp [hdec], ?_⟩
        intro e he
        simp only [List.mem_cons] at he
        rcases he with he | he
        · rw [he]
          exact lt_of_le_of_lt (selBest_min cx cy d ds d (by simp)) h
        · exact hlt e he
      · simp only [selBest, h, if_false]
        obtain ⟨l₁, l₂, hdec, hlt⟩ := ih b
        cases l₁ with
        | nil =>
            simp only [List.nil_append] at hdec
            obtain ⟨hb, hds⟩ := List.cons_eq_cons.mp hdec
            exact ⟨[], d :: ds, by rw [List.nil_append, ← hb], by simp⟩
        | cons a l₁' =>
            rw [List.cons_append] at hdec
            obtain ⟨hb, hds⟩ := List.cons_eq_cons.mp hdec
            refine ⟨b :: d :: l₁', l₂, ?_, ?_⟩
            · conv_lhs => rw [hds]
              simp
            intro e he
            simp only [List.mem_cons] at he
            have hbmem : distSq (selBest cx cy b ds) cx cy < distSq b cx cy := by
              have hm := hlt a (by simp)
              rw [← hb] at hm
              exact hm
            rcases he with he | he | he
            · rw [he]; exact hbmem
            · rw [he]; exact lt_of_lt_of_le hbmem (not_lt.mp h)
            · exact hlt e (by simp [he])

theorem selBest_mem (cx cy : ℚ) (b : Det) (l : List Det) :
    selBest cx cy b l ∈ b :: l := by
  obtain ⟨l₁, l₂, hdec, _⟩ := selBest_first cx cy b l
  rw [hdec]; exact List.mem_append.mpr (Or.inr (by simp))

/-- C1: for every non-empty detection list, the selection loop returns
exactly the detection whose box center minimizes the Euclidean distance to
the given center point (stated both for the squared distance the fold
compares and for the square-root distance the source computes), ties going
to the first such detection in input order (every detection strictly
earlier in the list has strictly larger distance); for the empty list it
returns `none`, so no actuation occurs that tick. -/
theorem select_nearest_spec (dets : List Det) (cx cy : ℚ) :
    (select_nearest [] cx cy = none) ∧
    (dets ≠ [] → ∃ d l₁ l₂,
      select_nearest dets cx cy = some d ∧
      dets = l₁ ++ d :: l₂ ∧
      (∀ e ∈ dets, distSq d cx cy ≤ distSq e cx cy ∧
        Real.sqrt ((distSq d cx cy : ℚ) : ℝ) ≤ Real.sqrt ((distSq e cx cy : ℚ) : ℝ)) ∧
      (∀ e ∈ l₁, distSq d cx cy < distSq e cx cy)) := by
  constructor
  · rfl
  · intro hne
    cases dets with
    | nil => exact absurd rfl hne
    | cons b l =>
        obtain ⟨l₁, l₂, hdec, hlt⟩ := selBest_first cx cy b l
        refine ⟨selBest cx cy b l, l₁, l₂, select_nearest_cons cx cy b l, hdec, ?_, hlt⟩
        intro e he
        have hle := selBest_min cx cy b l e he
        refine ⟨hle, Real.sqrt_le_sqrt ?_⟩
        exact_mod_cast hle

/-- Witness for `select_nearest_spec`: on the concrete list
`[(10,10,12,12), (0,0,2,2), (−2,−2,0,0)]` with center `(0,0)` the loop
must return the second box (center `(1,1)`, the unique minimizer among the
first two, and the first of the two boxes at distance `√2`). -/
theorem select_nearest_spec_witness :
    ([⟨10, 10, 12, 12⟩, ⟨0, 0, 2, 2⟩, ⟨-2, -2, 0, 0⟩] : List Det) ≠ [] ∧
    (∃ d l₁ l₂,
      select_nearest [⟨10, 10, 12, 12⟩, ⟨0, 0, 2, 2⟩, ⟨-2, -2, 0, 0⟩] 0 0 = some d ∧
      ([⟨10, 10, 12, 12⟩, ⟨0, 0, 2, 2⟩, ⟨-2, -2, 0, 0⟩] : List Det) = l₁ ++ d :: l₂ ∧
      (∀ e ∈ ([⟨10, 10, 12, 12⟩, ⟨0, 0, 2, 2⟩, ⟨-2, -2, 0, 0⟩] : List Det),
        distSq d 0 0 ≤ distSq e 0 0 ∧
        Real.sqrt ((distSq d 0 0 : ℚ) : ℝ) ≤ Real.sqrt ((distSq e 0 0 : ℚ) : ℝ)) ∧
      (∀ e ∈ l₁, distSq d 0 0 < distSq e 0 0)) :=
  ⟨by decide, (select_nearest_spec [⟨10, 10, 12, 12⟩, ⟨0, 0, 2, 2⟩, ⟨-2, -2, 0, 0⟩] 0 0).2
    (by decide)⟩

theorem loopGate_fst (st : GateState) (now cooldown : ℕ) :
    (loopGate st now cooldown).1 =
      (st.pressed && decide (cooldown ≤ now - st.lastTrigger)) := by
  by_cases hp : st.pressed <;>
    by_cases hcond : cooldown ≤ now - st.lastTrigger <;>
      simp [loopGate, check_trigger_cooldown, hp, hcond]

theorem loopGate_snd (st : GateState) (now cooldown : ℕ) :
    (loopGate st now cooldown).2 =
      { st with lastTrigger :=
          if st.pressed && decide (cooldown ≤ now - st.lastTrigger) then now
          else st.lastTrigger } := by
  obtain ⟨pr, tg, last⟩ := st
  by_cases hp : pr <;>
    by_cases hcond : cooldown ≤ now - last <;>
      simp [loopGate, check_trigger_cooldown, hp, hcond]

theorem runGate_cons (cooldown : ℕ) (st : GateState) (p : Bool) (t : ℕ)
    (rest : List (Bool × ℕ)) :
    runGate cooldown st ((p, t) :: rest) =
      ((loopGate { st with pressed := p } t cooldown).1 ::
        (runGate cooldown (loopGate { st with pressed := p } t cooldown).2 rest).1,
       (runGate cooldown (loopGate { st with pressed := p } t cooldown).2 rest).2) := by
  simp [runGate]

theorem fireTimes_cons (cooldown : ℕ) (st : GateState) (p : Bool) (t : ℕ)
    (rest : List (Bool × ℕ)) :
    fireTimes cooldown st ((p, t) :: rest) =
      (if (loopGate { st with pressed := p } t cooldown).1 then [t] else []) ++
        fireTimes cooldown (loopGate { st with pressed := p } t cooldown).2 rest := by
  by_cases h : (loopGate { st with pressed := p } t cooldown).1 <;>
    simp [fireTimes, runGate_cons, h]

theorem fireTimes_lower (cooldown : ℕ) (hc : 0 < cooldown) (st : GateState)
    (trace : List (Bool × ℕ)) :
    ∀ u ∈ fireTimes cooldown st trace, st.lastTrigger + cooldown ≤ u := by
  induction trace generalizing st with
  | nil => simp [fireTimes, runGate]
  | cons pt rest ih =>
      obtain ⟨p, t⟩ := pt
      intro u hu
      rw [fireTimes_cons] at hu
      by_cases hfire : (loopGate { st with pressed := p } t cooldown).1
      · have hcond : cooldown ≤ t - st.lastTrigger := by
          have h' := hfire
          rw [loopGate_fst] at h'
          simp at h'
          exact h'.2
        have hlast : st.lastTrigger + cooldown ≤ t := by
          have hpos : 0 < t - st.lastTrigger := lt_of_lt_of_le hc hcond
          omega
        have hst2 : (loopGate { st with pressed := p } t cooldown).2.lastTrigger = t := by
          rw [loopGate_snd]
          simp only [loopGate_fst] at hfire
          simp [hfire]
        simp only [hfire, if_true, List.mem_append, List.mem_singleton] at hu
        rcases hu with hu | hu
        · rw [hu]; exact hlast
        · have := ih (loopGate { st with pressed := p } t cooldown).2 u hu
          rw [hst2] at this
          omega
      · simp only [hfire, if_false, List.nil_append] at hu
        have hst2 : (loopGate { st with pressed := p } t cooldown).2.lastTrigger
            = st.lastTrigger := by
          rw [loopGate_snd]
          simp only [loopGate_fst] at hfire
          simp [hfire]
        have := ih (loopGate { st with pressed := p } t cooldown).2 u hu
        rw [hst2] at this
        exact this

theorem fireTimes_pairwise (cooldown : ℕ) (hc : 0 < cooldown) (st : GateState)
    (trace : List (Bool × ℕ)) :
    (fireTimes cooldown st trace).Pairwise (fun a b => a + cooldown ≤ b) := by
  induction trace generalizing st with
  | nil => simp [fireTimes, runGate]
  | cons pt rest ih =>
      obtain ⟨p, t⟩ := pt
      rw [fireTimes_cons]
      by_cases hfire : (loopGate { st with pressed := p } t cooldown).1
      · have hst2 : (loopGate { st with pressed := p } t cooldown).2.lastTrigger = t := by
          rw [loopGate_snd]
          simp only [loopGate_fst] at hfire
          simp [hfire]
        simp only [hfire, if_true, List.singleton_append, List.pairwise_cons]
        refine ⟨?_, ih _⟩
        intro u hu
        have := fireTimes_lower cooldown hc _ rest u hu
        rw [hst2] at this
        exact this
      · simpa [hfire] using ih (loopGate { st with pressed := p } t cooldown).2

/-- C7: in Hold mode (which is how the gate behaves unconditionally), the
gate permits firing iff the hotkey is currently pressed and at least
`cooldown` ms have elapsed since `last_trigger`; on permit `last_trigger`
is set to `now` (otherwise it is unchanged, and `toggle_state` is never
touched); consequently over any trace of ticks the permitted fire times
are pairwise separated by at least `cooldown` ms — at most one fire per
cooldown window, no matter how many ticks fall inside it. -/
theorem hold_gate_spec (st : GateState) (now cooldown : ℕ) (trace : List (Bool × ℕ))
    (hc : 0 < cooldown) :
    ((loopGate st now cooldown).1 =
        (st.pressed && decide (cooldown ≤ now - st.lastTrigger))) ∧
    ((loopGate st now cooldown).2.lastTrigger =
        if (loopGate st now cooldown).1 then now else st.lastTrigger) ∧
    ((loopGate st now cooldown).2.toggleOn = st.toggleOn) ∧
    ((loopGate st now cooldown).2.pressed = st.pressed) ∧
    (fireTimes cooldown st trace).Pairwise (fun a b => a + cooldown ≤ b) := by
  refine ⟨?_, ?_, ?_, ?_, fireTimes_pairwise cooldown hc st trace⟩ <;>
    by_cases hp : st.pressed <;>
      by_cases hcond : cooldown ≤ now - st.lastTrigger <;>
        simp [loopGate, check_trigger_cooldown, hp, hcond]

/-- Witness for `hold_gate_spec`: state pressed, `last_trigger = 0`,
tick at `now = 150` with cooldown 100; trace with ticks every 50 ms while
held: fires at 100 and 200 only. -/
theorem hold_gate_spec_witness :
    (0 : ℕ) < 100 ∧
    (((loopGate ⟨true, false, 0⟩ 150 100).1 =
        ((true : Bool) && decide ((100 : ℕ) ≤ 150 - 0))) ∧
    ((loopGate ⟨true, false, 0⟩ 150 100).2.lastTrigger =
        if (loopGate ⟨true, false, 0⟩ 150 100).1 then 150 else 0) ∧
    ((loopGate ⟨true, false, 0⟩ 150 100).2.toggleOn = false) ∧
    ((loopGate ⟨true, false, 0⟩ 150 100).2.pressed = true) ∧
    (fireTimes 100 ⟨true, false, 0⟩
        [(true, 50), (true, 100), (true, 150), (true, 200)]).Pairwise
      (fun a b => a + 100 ≤ b)) :=
  ⟨by decide, hold_gate_spec ⟨true, false, 0⟩ 150 100
    [(true, 50), (true, 100), (true, 150), (true, 200)] (by decide)⟩

/-- C2 (code bug): the gate ignores the trigger type entirely.  On the
trace "press edge at t = 200 ms, key released at t = 400 ms" (cooldown
100 ms, toggle initially off as `set_toggle_state(false)` establishes at
start), the code fires at the pressed tick and refuses at the released
tick, and `toggle_state` is never flipped by the press edge — whereas the
claim requires the edge to flip `toggle_on` so that firing stays permitted
while the key is up. -/
theorem toggle_gate_ignored :
    runGate 100 ⟨false, false, 0⟩ [(true, 200), (false, 400)] =
      ([true, false], ⟨false, false, 200⟩) ∧
    (runGate 100 ⟨false, false, 0⟩ [(true, 200), (false, 400)]).2.toggleOn = false := by
  constructor <;> rfl

/-- C6: for every display size and requested rectangle with `x < W`,
`y < H`, `capture_region` either makes no crop call (and then reports no
new frame or a fatal non-crop error) or calls `buffer_crop` with a
rectangle `[x, end_x) × [y, end_y)` of positive area fully contained in
`[0, W) × [0, H)`; zero width/height returns `false` immediately with no
platform call, and a rectangle empty after clipping also returns `false`
with no platform call. -/
theorem capture_region_safe (st : CaptureState) (x y w h : ℕ) (o : AcquireOutcome)
    (hx : x < st.width) (hy : y < st.height) :
    (∀ st' did r, capture_region st x y w h o = .ok st' did (some r) →
      cropContained st.width st.height x y r) ∧
    (∀ r, capture_region st x y w h o = .fatal (some r) →
      cropContained st.width st.height x y r) ∧
    (w = 0 ∨ h = 0 → capture_region st x y w h o = .ok st false none) ∧
    (¬ (w = 0 ∨ h = 0) →
      min ((x + w) % 2 ^ 32) st.width ≤ x ∨ min ((y + h) % 2 ^ 32) st.height ≤ y →
      capture_region st x y w h o = .ok st false none) := by
  unfold capture_region
  by_cases hz : w = 0 ∨ h = 0
  · rw [if_pos hz]
    refine ⟨?_, ?_, fun _ => rfl, fun hnz => absurd hz hnz⟩
    · intro st' did r heq
      simp at heq
    · intro r heq
      cases heq
  · rw [if_neg hz]
    by_cases hemp : min ((x + w) % 2 ^ 32) st.width ≤ x ∨
        min ((y + h) % 2 ^ 32) st.height ≤ y
    · rw [if_pos hemp]
      refine ⟨?_, ?_, fun hz0 => absurd hz0 hz, fun _ _ => rfl⟩
      · intro st' did r heq
        simp at heq
      · intro r heq
        cases heq
    · rw [if_neg hemp]
      push_neg at hemp
      have hcont : cropContained st.width st.height x y
          (x, y, min ((x + w) % 2 ^ 32) st.width, min ((y + h) % 2 ^ 32) st.height) :=
        ⟨rfl, rfl, hemp.1, min_le_right _ _, hemp.2, min_le_right _ _⟩
      refine ⟨?_, ?_, fun hz' => absurd hz' hz,
        fun _ hemp' => absurd hemp' (by push_neg; exact hemp)⟩
      · intro st' did r heq
        cases o <;> simp only [] at heq <;> cases heq <;> exact hcont
      · intro r heq
        cases o <;> simp only [] at heq <;> cases heq <;> exact hcont

/-- Witness for `capture_region_safe`: display 1920×1080, requested
rectangle (100, 100, 2000, 2000) clips to `end = (1920, 1080)`, fully
inside the display. -/
theorem capture_region_safe_witness :
    (100 : ℕ) < 1920 ∧ (100 : ℕ) < 1080 ∧
    (∀ st' did r, capture_region ⟨1920, 1080, []⟩ 100 100 2000 2000 (.ok [1]) =
        .ok st' did (some r) →
      cropContained 1920 1080 100 100 r) :=
  ⟨by decide, by decide,
    (capture_region_safe ⟨1920, 1080, []⟩ 100 100 2000 2000 (.ok [1])
      (by decide) (by decide)).1⟩

/-- C10: on the soft "no new frame" paths that the claim lists — timeout,
invalid-size, zero requested width/height, rectangle empty after clipping
— the capture state is returned exactly unchanged: the pixel buffer keeps
its previous contents and the recorded width/height are untouched; only
the access-lost recovery path refreshes width/height (and even it leaves
the pixel buffer alone). -/
theorem capture_soft_fail_preserves_state (st : CaptureState) (x y w h : ℕ)
    (w' h' : ℕ) (o : AcquireOutcome) :
    (capture_region st x y w h .timeout = .ok st false none) ∧
    (capture_region st x y w h .invalidSize = .ok st false none) ∧
    (w = 0 ∨ h = 0 → capture_region st x y w h o = .ok st false none) ∧
    (min ((x + w) % 2 ^ 32) st.width ≤ x ∨ min ((y + h) % 2 ^ 32) st.height ≤ y →
      capture_region st x y w h o = .ok st false none) ∧
    (capture_full st .timeout = .ok st false) ∧
    (capture_full st (.accessLost w' h') =
      .ok { st with width := w', height := h' } false) ∧
    (¬ (w = 0 ∨ h = 0) →
      ¬ (min ((x + w) % 2 ^ 32) st.width ≤ x ∨ min ((y + h) % 2 ^ 32) st.height ≤ y) →
      capture_region st x y w h (.accessLost w' h') =
        .ok { st with width := w', height := h' } false none) := by
  refine ⟨?_, ?_, ?_, ?_, rfl, rfl, ?_⟩
  · unfold capture_region
    by_cases hz : w = 0 ∨ h = 0
    · rw [if_pos hz]
    · rw [if_neg hz]
      by_cases hemp : min ((x + w) % 2 ^ 32) st.width ≤ x ∨
          min ((y + h) % 2 ^ 32) st.height ≤ y
      · rw [if_pos hemp]
      · rw [if_neg hemp]
  · unfold capture_region
    by_cases hz : w = 0 ∨ h = 0
    · rw [if_pos hz]
    · rw [if_neg hz]
      by_cases hemp : min ((x + w) % 2 ^ 32) st.width ≤ x ∨
          min ((y + h) % 2 ^ 32) st.height ≤ y
      · rw [if_pos hemp]
      · rw [if_neg hemp]
  · intro hz
    unfold capture_region
    rw [if_pos hz]
  · intro hemp
    unfold capture_region
    by_cases hz : w = 0 ∨ h = 0
    · rw [if_pos hz]
    · rw [if_neg hz, if_pos hemp]
  · intro hz hemp
    unfold capture_region
    rw [if_neg hz, if_neg hemp]

/-- Witness for `capture_soft_fail_preserves_state`: concrete session
1920×1080 with buffer `[7]`, rectangle (0, 0, 0, 5) (zero width). -/
theorem capture_soft_fail_preserves_state_witness :
    capture_region ⟨1920, 1080, [7]⟩ 0 0 0 5 .timeout = .ok ⟨1920, 1080, [7]⟩ false none ∧
    ((0 : ℕ) = 0 ∨ (5 : ℕ) = 0 →
      capture_region ⟨1920, 1080, [7]⟩ 0 0 0 5 .otherError = .ok ⟨1920, 1080, [7]⟩ false none) :=
  ⟨(capture_soft_fail_preserves_state ⟨1920, 1080, [7]⟩ 0 0 0 5 0 0 .otherError).1,
   (capture_soft_fail_preserves_state ⟨1920, 1080, [7]⟩ 0 0 0 5 0 0 .otherError).2.2.1⟩

theorem bgraToRgb_roundtrip_aux :
    ∀ (n : ℕ) (src : List ℕ), src.length ≤ n →
      rgbToBgra (bgraToRgb src) = setAlpha255 src ∧
      dropAlpha (setAlpha255 src) = dropAlpha src := by
  intro n
  induction n with
  | zero =>
      intro src hlen
      have : src = [] := List.eq_nil_of_length_eq_zero (Nat.le_zero.mp hlen)
      rw [this]
      exact ⟨rfl, rfl⟩
  | succ n ih =>
      intro src hlen
      rcases src with _ | ⟨b, _ | ⟨g, _ | ⟨r, _ | ⟨a, rest⟩⟩⟩⟩
      · exact ⟨rfl, rfl⟩
      · exact ⟨rfl, rfl⟩
      · exact ⟨rfl, rfl⟩
      · exact ⟨rfl, rfl⟩
      · have hrest : rest.length ≤ n := by
          simp only [List.length_cons] at hlen
          omega
        obtain ⟨h1, h2⟩ := ih rest hrest
        constructor
        · show b :: g :: r :: 255 :: rgbToBgra (bgraToRgb rest) =
            b :: g :: r :: 255 :: setAlpha255 rest
          rw [h1]
        · show b :: g :: r :: dropAlpha (setAlpha255 rest) = b :: g :: r :: dropAlpha rest
          rw [h2]

theorem bgraToRgb_index (src : List ℕ) :
    ∀ i, 4 * i + 3 < src.length →
      (bgraToRgb src).get? (3 * i) = src.get? (4 * i + 2) ∧
      (bgraToRgb src).get? (3 * i + 1) = src.get? (4 * i + 1) ∧
      (bgraToRgb src).get? (3 * i + 2) = src.get? (4 * i) := by
  intro i
  induction i generalizing src with
  | zero =>
      intro h
      rcases src with _ | ⟨b, _ | ⟨g, _ | ⟨r, _ | ⟨a, rest⟩⟩⟩⟩ <;>
        simp_all [bgraToRgb]
  | succ i ih =>
      intro h
      rcases src with _ | ⟨b, _ | ⟨g, _ | ⟨r, _ | ⟨a, rest⟩⟩⟩⟩ <;>
        simp only [List.length_cons, List.length_nil] at h <;> try omega
      have hrest : 4 * i + 3 < rest.length := by omega
      obtain ⟨h1, h2, h3⟩ := ih rest hrest
      refine ⟨?_, ?_, ?_⟩
      · show (r :: g :: b :: bgraToRgb rest).get? (3 * (i + 1)) =
          (b :: g :: r :: a :: rest).get? (4 * (i + 1) + 2)
        rw [show 3 * (i + 1) = 3 * i + 1 + 1 + 1 by ring,
          show 4 * (i + 1) + 2 = 4 * i + 2 + 1 + 1 + 1 + 1 by ring]
        simp only [List.get?_cons_succ]
        exact h1
      · show (r :: g :: b :: bgraToRgb rest).get? (3 * (i + 1) + 1) =
          (b :: g :: r :: a :: rest).get? (4 * (i + 1) + 1)
        rw [show 3 * (i + 1) + 1 = 3 * i + 1 + 1 + 1 + 1 by ring,
          show 4 * (i + 1) + 1 = 4 * i + 1 + 1 + 1 + 1 + 1 by ring]
        simp only [List.get?_cons_succ]
        exact h2
      · show (r :: g :: b :: bgraToRgb rest).get? (3 * (i + 1) + 2) =
          (b :: g :: r :: a :: rest).get? (4 * (i + 1))
        rw [show 3 * (i + 1) + 2 = 3 * i + 2 + 1 + 1 + 1 by ring,
          show 4 * (i + 1) = 4 * i + 1 + 1 + 1 + 1 by ring]
        simp only [List.get?_cons_succ]
        exact h3

/-- C9: for any source buffer whose length is a multiple of 4, the
conversion writes, for each pixel `i`, `dst[3i] = src[4i+2]`,
`dst[3i+1] = src[4i+1]`, `dst[3i+2] = src[4i]` (channel reorder, alpha
dropped); and converting then re-expanding each 3-byte pixel with alpha
255 and the inverse channel order reproduces the source with every alpha
byte forced to 255 — in particular the visible (non-alpha) channels of
the source are reproduced exactly. -/
theorem bgraToRgb_spec (src : List ℕ) (hlen : src.length % 4 = 0) :
    (∀ i, 4 * i + 3 < src.length →
      (bgraToRgb src).get? (3 * i) = src.get? (4 * i + 2) ∧
      (bgraToRgb src).get? (3 * i + 1) = src.get? (4 * i + 1) ∧
      (bgraToRgb src).get? (3 * i + 2) = src.get? (4 * i)) ∧
    rgbToBgra (bgraToRgb src) = setAlpha255 src ∧
    dropAlpha (rgbToBgra (bgraToRgb src)) = dropAlpha src := by
  obtain ⟨h1, h2⟩ := bgraToRgb_roundtrip_aux src.length src le_rfl
  exact ⟨bgraToRgb_index src, h1, by rw [h1, h2]⟩

/-- Witness for `bgraToRgb_spec`: the two-pixel buffer
`[1, 2, 3, 4, 5, 6, 7, 8]` converts to `[3, 2, 1, 7, 6, 5]` and expands
back to `[1, 2, 3, 255, 5, 6, 7, 255]`. -/
theorem bgraToRgb_spec_witness :
    ([1, 2, 3, 4, 5, 6, 7, 8] : List ℕ).length % 4 = 0 ∧
    (rgbToBgra (bgraToRgb [1, 2, 3, 4, 5, 6, 7, 8]) =
      setAlpha255 [1, 2, 3, 4, 5, 6, 7, 8] ∧
    dropAlpha (rgbToBgra (bgraToRgb [1, 2, 3, 4, 5, 6, 7, 8])) =
      dropAlpha [1, 2, 3, 4, 5, 6, 7, 8]) :=
  ⟨by decide, ⟨(bgraToRgb_spec [1, 2, 3, 4, 5, 6, 7, 8] (by decide)).2.1,
    (bgraToRgb_spec [1, 2, 3, 4, 5, 6, 7, 8] (by decide)).2.2⟩⟩

theorem capture_region_ok_of_ok (st : CaptureState) (x y w h : ℕ) (bytes : List ℕ) :
    ∃ cap did crop, capture_region st x y w h (.ok bytes) = .ok cap did crop := by
  unfold capture_region
  by_cases hz : w = 0 ∨ h = 0
  · rw [if_pos hz]; exact ⟨st, false, none, rfl⟩
  · rw [if_neg hz]
    by_cases hemp : min ((x + w) % 2 ^ 32) st.width ≤ x ∨
        min ((y + h) % 2 ^ 32) st.height ≤ y
    · rw [if_pos hemp]; exact ⟨st, false, none, rfl⟩
    · rw [if_neg hemp]
      exact ⟨{ st with rgba := bytes }, bytes ≠ [],
        some (x, y, min ((x + w) % 2 ^ 32) st.width, min ((y + h) % 2 ^ 32) st.height), rfl⟩

/-- C4 (counterexample): with no model loaded, a running engine and a
successfully captured non-empty full-screen frame, `capture_once`
succeeds — it silently skips inference (engine state, including
`results`, unchanged) instead of failing with a `StateError`. -/
theorem captureOnce_no_model_counterexample :
    captureOnce ⟨none, [], true, 1 / 4, .fullscreen⟩ ⟨⟨1920, 1080, []⟩, []⟩
        (.ok [1, 2, 3, 4]) =
      .ok (⟨none, [], true, 1 / 4, .fullscreen⟩, ⟨⟨1920, 1080, [1, 2, 3, 4]⟩, []⟩, true) := by
  rfl

/-- C4 (amended): when no model is loaded, `capture_once` on a
successfully acquired frame never fails because of the missing model: it
returns `Ok`, leaves the engine state (in particular `results`)
completely unchanged, runs no inference, and does not touch the RGB
buffer. -/
theorem captureOnce_no_model (eng : EngineState) (ctx : InferCtx) (bytes : List ℕ)
    (hm : eng.model = none) :
    ∃ ctx' did, captureOnce eng ctx (.ok bytes) = .ok (eng, ctx', did) ∧
      ctx'.rgb = ctx.rgb := by
  by_cases hr : eng.isRunning = false
  · exact ⟨ctx, false, by simp [captureOnce, hr], rfl⟩
  · unfold captureOnce
    rw [if_neg hr]
    have hafter : ∀ ctx' did w h, ctx'.rgb = ctx.rgb →
        ∃ ctx'' did', afterCapture eng ctx' did w h = .ok (eng, ctx'', did') ∧
          ctx''.rgb = ctx.rgb := by
      intro ctx' did w h hrgb
      unfold afterCapture
      by_cases hskip : did = false ∨ ctx'.cap.rgba = []
      · exact ⟨ctx', false, by rw [if_pos hskip], hrgb⟩
      · rw [if_neg hskip, hm]
        exact ⟨ctx', did, rfl, hrgb⟩
    match hdis : regionDispatch eng.mode ctx.cap.width ctx.cap.height with
    | (.full, w, h) =>
        show ∃ ctx' did, fullStep eng ctx w h (.ok bytes) = .ok (eng, ctx', did) ∧
          ctx'.rgb = ctx.rgb
        exact hafter { ctx with cap := { ctx.cap with rgba := bytes } } (bytes ≠ []) w h rfl
    | (.region x y rw rh, w, h) =>
        show ∃ ctx' did, regionStep eng ctx x y rw rh w h (.ok bytes) = .ok (eng, ctx', did) ∧
          ctx'.rgb = ctx.rgb
        obtain ⟨cap, did, crop, hreg⟩ :=
          capture_region_ok_of_ok ctx.cap x y rw rh bytes
        unfold regionStep
        rw [hreg]
        exact hafter { ctx with cap := cap } did w h rfl

/-- Witness for `captureOnce_no_model`: running engine without a model in
`Center640` mode on a 4×4 display. -/
theorem captureOnce_no_model_witness :
    (⟨none, [], true, 1 / 4, .center640⟩ : EngineState).model = none ∧
    (∃ ctx' did,
      captureOnce ⟨none, [], true, 1 / 4, .center640⟩ ⟨⟨4, 4, [5]⟩, [9]⟩ (.ok [1, 2, 3, 4]) =
        .ok (⟨none, [], true, 1 / 4, .center640⟩, ctx', did) ∧
      ctx'.rgb = (⟨⟨4, 4, [5]⟩, [9]⟩ : InferCtx).rgb) :=
  ⟨rfl, captureOnce_no_model ⟨none, [], true, 1 / 4, .center640⟩ ⟨⟨4, 4, [5]⟩, [9]⟩
    [1, 2, 3, 4] rfl⟩

/-- C5 (counterexample): in Custom mode with a zero-width requested
rectangle (an effective rectangle without positive width), the tick is
NOT treated as "no frame": the code falls back to a full-screen capture,
acquires the frame, and runs inference on it (the stored results change). -/
theorem captureOnce_custom_invalid_counterexample :
    captureOnce engC5 ⟨⟨2, 2, []⟩, []⟩ (.ok [9, 9, 9, 9]) =
      .ok ({ engC5 with results := [[⟨1, 2, 3, 4⟩]] },
        ⟨⟨2, 2, [9, 9, 9, 9]⟩, [9, 9, 9, 0, 0, 0, 0, 0, 0, 0, 0, 0]⟩, true) ∧
    ({ engC5 with results := [[⟨1, 2, 3, 4⟩]] } : EngineState).results ≠ engC5.results :=
  ⟨rfl, by decide⟩

theorem regionStep_zero (eng : EngineState) (ctx : InferCtx) (x y rw rh w h : ℕ)
    (o : AcquireOutcome) (hz : rw = 0 ∨ rh = 0) :
    regionStep eng ctx x y rw rh w h o = .ok (eng, ctx, false) := by
  unfold regionStep capture_region
  rw [if_pos hz]
  show afterCapture eng { ctx with cap := ctx.cap } false w h = .ok (eng, ctx, false)
  unfold afterCapture
  rw [if_pos (Or.inl rfl)]

/-- C5 (amended): the "no frame on a degenerate rectangle" invariant
holds for the FixedSquare modes — in `Center640` or `Center1280`, if the
display reports zero width or zero height the clamped square has a zero
dimension, `capture_region` declines before any platform call, and the
tick yields no frame and no inference — but NOT for Custom mode: an
invalid requested rectangle (zero width/height or origin outside the
display) instead falls back to a full-screen capture, and with a
successfully acquired non-empty frame the tick proceeds (it is never
reported as a no-frame tick). -/
theorem region_degenerate_spec (eng : EngineState) (ctx : InferCtx)
    (x y w h : ℕ) (bytes : List ℕ) (o : AcquireOutcome) :
    ((eng.mode = .center640 ∨ eng.mode = .center1280) →
      ctx.cap.width = 0 ∨ ctx.cap.height = 0 → eng.isRunning = true →
      captureOnce eng ctx o = .ok (eng, ctx, false)) ∧
    (eng.mode = .custom x y w h →
      ¬ (0 < w ∧ 0 < h ∧ x < ctx.cap.width ∧ y < ctx.cap.height) →
      regionDispatch eng.mode ctx.cap.width ctx.cap.height =
        (.full, ctx.cap.width, ctx.cap.height) ∧
      (eng.isRunning = true → bytes ≠ [] →
        captureOnce eng ctx (.ok bytes) =
          afterCapture eng { ctx with cap := { ctx.cap with rgba := bytes } } true
            ctx.cap.width ctx.cap.height ∧
        ∀ eng' ctx', captureOnce eng ctx (.ok bytes) ≠ .ok (eng', ctx', false))) := by
  constructor
  · intro hmode hwh hr
    unfold captureOnce
    rw [if_neg (by simp [hr])]
    rcases hmode with hm | hm
    · rw [hm]
      show regionStep eng ctx ((ctx.cap.width - min 640 ctx.cap.width) / 2)
          ((ctx.cap.height - min 640 ctx.cap.height) / 2)
          (min 640 ctx.cap.width) (min 640 ctx.cap.height)
          (min 640 ctx.cap.width) (min 640 ctx.cap.height) o = .ok (eng, ctx, false)
      refine regionStep_zero eng ctx _ _ _ _ _ _ o ?_
      rcases hwh with hw | hh
      · exact Or.inl (by rw [hw]; rfl)
      · exact Or.inr (by rw [hh]; rfl)
    · rw [hm]
      show regionStep eng ctx ((ctx.cap.width - min 1280 ctx.cap.width) / 2)
          ((ctx.cap.height - min 1280 ctx.cap.height) / 2)
          (min 1280 ctx.cap.width) (min 1280 ctx.cap.height)
          (min 1280 ctx.cap.width) (min 1280 ctx.cap.height) o = .ok (eng, ctx, false)
      refine regionStep_zero eng ctx _ _ _ _ _ _ o ?_
      rcases hwh with hw | hh
      · exact Or.inl (by rw [hw]; rfl)
      · exact Or.inr (by rw [hh]; rfl)
  · intro hmode hinv
    have hdis : regionDispatch eng.mode ctx.cap.width ctx.cap.height =
        (.full, ctx.cap.width, ctx.cap.height) := by
      rw [hmode]
      show (if 0 < w ∧ 0 < h ∧ x < ctx.cap.width ∧ y < ctx.cap.height then
          (CaptureCall.region x y (min w (ctx.cap.width - x)) (min h (ctx.cap.height - y)),
            min w (ctx.cap.width - x), min h (ctx.cap.height - y))
        else (CaptureCall.full, ctx.cap.width, ctx.cap.height)) =
        (CaptureCall.full, ctx.cap.width, ctx.cap.height)
      rw [if_neg hinv]
    refine ⟨hdis, ?_⟩
    intro hr hbytes
    have hrun : ¬ eng.isRunning = false := by simp [hr]
    have hco : captureOnce eng ctx (.ok bytes) =
        afterCapture eng { ctx with cap := { ctx.cap with rgba := bytes } } true
          ctx.cap.width ctx.cap.height := by
      unfold captureOnce
      rw [if_neg hrun, hdis]
      show fullStep eng ctx ctx.cap.width ctx.cap.height (.ok bytes) = _
      unfold fullStep
      show afterCapture eng { ctx with cap := { ctx.cap with rgba := bytes } }
        (decide (bytes ≠ [])) ctx.cap.width ctx.cap.height = _
      rw [decide_eq_true hbytes]
    refine ⟨hco, ?_⟩
    intro eng' ctx' hcontra
    rw [hco] at hcontra
    unfold afterCapture at hcontra
    rw [if_neg (by simp [hbytes])] at hcontra
    cases hm : eng.model with
    | none =>
        rw [hm] at hcontra
        simp at hcontra
    | some run =>
        rw [hm] at hcontra
        dsimp only at hcontra
        revert hcontra
        cases hrr : run (convertInto ctx.rgb bytes ctx.cap.width ctx.cap.height)
            ctx.cap.width ctx.cap.height eng.confThreshold with
        | error e => intro hcontra; cases hcontra
        | ok ys =>
            cases hh : ys.head? with
            | none => intro hcontra; simp [hh] at hcontra
            | some yy => intro hcontra; simp [hh] at hcontra

/-- Witness for `region_degenerate_spec`: `Center1280` on a zero-height
display with a running, model-less engine gives a no-frame tick. -/
theorem region_degenerate_spec_witness :
    ((⟨none, [], true, 1 / 4, .center1280⟩ : EngineState).mode = .center640 ∨
      (⟨none, [], true, 1 / 4, .center1280⟩ : EngineState).mode = .center1280) ∧
    ((⟨⟨50, 0, [3]⟩, []⟩ : InferCtx).cap.width = 0 ∨
      (⟨⟨50, 0, [3]⟩, []⟩ : InferCtx).cap.height = 0) ∧
    ((⟨none, [], true, 1 / 4, .center1280⟩ : EngineState).isRunning = true) ∧
    captureOnce ⟨none, [], true, 1 / 4, .center1280⟩ ⟨⟨50, 0, [3]⟩, []⟩ .timeout =
      .ok (⟨none, [], true, 1 / 4, .center1280⟩, ⟨⟨50, 0, [3]⟩, []⟩, false) :=
  ⟨Or.inr rfl, Or.inr rfl, rfl,
    (region_degenerate_spec ⟨none, [], true, 1 / 4, .center1280⟩ ⟨⟨50, 0, [3]⟩, []⟩
      0 0 0 0 [] .timeout).1 (Or.inr rfl) (Or.inr rfl) rfl⟩

/-- C3 (counterexample): with a 1920×1080 display in `Center640` mode the
effective rectangle is indeed (640, 220, 640, 640), but the loop measures
the delta against the full-display center (960, 540) computed once at
loop start — not against the crop center — so the box (300, 300, 340,
340), whose center (320, 320) is exactly the crop center, yields the
move (−640, −220) at unit sensitivities and zero offsets, not (0, 0). -/
theorem center640_delta_counterexample :
    regionDispatch .center640 1920 1080 = (.region 640 220 640 640, 640, 640) ∧
    screenCenter 1920 1080 = (960, 540) ∧
    computeMove ⟨300, 300, 340, 340⟩ (screenCenter 1920 1080).1
      (screenCenter 1920 1080).2 0 0 1 1 = (-640, -220) ∧
    ((-640 : ℤ), (-220 : ℤ)) ≠ ((0 : ℤ), (0 : ℤ)) :=
  ⟨rfl, by norm_num [screenCenter], by norm_num [screenCenter, computeMove, ratTrunc], by decide⟩

/-- C3 (amended): display 1920×1080 with `Center640` gives the effective
rectangle (640, 220, 640, 640); for the detection box (300, 300, 340,
340) relative to that crop (center (320, 320), equal to the crop center)
and zero target offsets, the computed move is
`(trunc(−640·yaw), trunc(−220·pitch))` — the delta is taken against the
full-display center (960, 540) fixed at loop start, and it would be
(0, 0) only if measured against the crop center (320, 320). -/
theorem center640_delta_spec (yaw pitch : ℚ) :
    regionDispatch .center640 1920 1080 = (.region 640 220 640 640, 640, 640) ∧
    computeMove ⟨300, 300, 340, 340⟩ (screenCenter 1920 1080).1
      (screenCenter 1920 1080).2 0 0 yaw pitch =
      (ratTrunc (-640 * yaw), ratTrunc (-220 * pitch)) ∧
    computeMove ⟨300, 300, 340, 340⟩ 320 320 0 0 yaw pitch = (0, 0) := by
  refine ⟨rfl, ?_, ?_⟩
  · unfold computeMove screenCenter
    norm_num
  · unfold computeMove
    norm_num [ratTrunc]

/-- C8: the stem "yolo11n" resolves to version 11 (digits after the
"yolo" token win first); "model_v8_seg" resolves to version 8 via the
`v`-scan, with the segmentation task; and any stem from which no version
can be parsed, with no explicit override, makes the load fail with a
configuration error before inference can start. -/
theorem infer_yolo_meta_spec :
    infer_yolo_meta ("yolo11n".toList) none = .ok (.objectDetection, 11) ∧
    infer_yolo_meta ("model_v8_seg".toList) none = .ok (.instanceSegmentation, 8) ∧
    (∀ stem, parse_version_from_name stem = none →
      infer_yolo_meta stem none = .error "无法从文件名解析 YOLO 版本") := by
  refine ⟨rfl, rfl, ?_⟩
  intro stem hnone
  unfold infer_yolo_meta
  rw [Option.none_or, hnone]

/-- Witness for `infer_yolo_meta_spec`: the stem "plainmodel" carries
neither a "yolo" marker nor a parsable `v`-number, so resolution fails. -/
theorem infer_yolo_meta_spec_witness :
    parse_version_from_name ("plainmodel".toList) = none ∧
    infer_yolo_meta ("plainmodel".toList) none = .error "无法从文件名解析 YOLO 版本" :=
  ⟨by decide, infer_yolo_meta_spec.2.2 ("plainmodel".toList) (by decide)⟩

end LuoluoAI
